import Mathlib

/- Shallow embedding of the screen-recorder repository:
   the Recording Store (src/frontend/lib/indexeddb.ts) and the Capture
   Controller (src/unnamed/part_000, the ScreenRecorder component).
   JS strings are modelled as lists of characters, binary blobs as lists
   of byte values, and the IndexedDB object store as an association list
   from keys to stored values. -/

/-- Keys of the IndexedDB object store (JS strings as character lists). -/
abbrev Key := List Char

/-- Binary payloads (JS Blobs) as byte sequences. -/
abbrev Blob := List Nat

/-- The five-character suffix "-meta" used to derive metadata keys. -/
def metaSuffix : Key := ['-', 'm', 'e', 't', 'a']

/-- Derived metadata key: the template literal `id`-meta from the source. -/
def metaKey (id : Key) : Key := id ++ metaSuffix

/-- RecordingMeta interface from src/frontend/lib/indexeddb.ts. -/
structure RecordingMeta where
  id : Key
  name : List Char
  timestamp : Nat
  duration : Nat
  size : Nat
deriving DecidableEq

/-- A value stored in the object store: either a video Blob (payload) or a
RecordingMeta record. The store itself is untyped; both kinds share it. -/
inductive StoreValue where
  | blob (b : Blob)
  | meta (m : RecordingMeta)
deriving DecidableEq

/-- The `recordings` object store: an association list keyed by JS strings. -/
abbrev Store := List (Key × StoreValue)

/-- IDBObjectStore.get: the value at a key, none when absent. -/
def getKey : Store → Key → Option StoreValue
  | [], _ => none
  | (k', v') :: rest, k => if k' = k then some v' else getKey rest k

/-- IDBObjectStore.put with an explicit key: replace the existing entry or
insert a new one. -/
def putEntry : Store → Key → StoreValue → Store
  | [], k, v => [(k, v)]
  | (k', v') :: rest, k, v =>
      if k' = k then (k, v) :: rest else (k', v') :: putEntry rest k v

/-- IDBObjectStore.delete: remove the entry at a key; succeeds (is a no-op)
when the key is absent. -/
def deleteKey : Store → Key → Store
  | [], _ => []
  | (k', v') :: rest, k =>
      if k' = k then deleteKey rest k else (k', v') :: deleteKey rest k

/-- Whether a key currently holds a value. -/
def hasKey (s : Store) (k : Key) : Bool := (getKey s k).isSome

/-- saveVideo from src/frontend/lib/indexeddb.ts: constructs the metadata
record and writes the blob under `id` and the metadata under `id ++ "-meta"`
within one readwrite transaction. `now` stands for Date.now() and
`defaultName` for generateDefaultName() (both ambient in the source).
Returns the constructed metadata together with the committed store. -/
def saveVideo (s : Store) (id : Key) (blob : Blob) (duration : Nat)
    (name : Option (List Char)) (now : Nat) (defaultName : List Char) :
    RecordingMeta × Store :=
  -- JS: name || generateDefaultName(); an empty string is falsy and also
  -- falls back to the default.
  let chosenName := match name with
    | some n => if n = [] then defaultName else n
    | none => defaultName
  let meta : RecordingMeta :=
    { id := id, name := chosenName, timestamp := now, duration := duration,
      size := blob.length }
  (meta,
   putEntry (putEntry s id (StoreValue.blob blob)) (metaKey id)
     (StoreValue.meta meta))

/-- getVideo from src/frontend/lib/indexeddb.ts: point lookup by `id`.
The source resolves `request.result || null`; every stored value is truthy,
so this is exactly the lookup. -/
def getVideo (s : Store) (id : Key) : Option StoreValue :=
  getKey s id

/-- The filter `k.endsWith('-meta')` used by getAllRecordings. -/
def endsWithMeta (k : Key) : Bool := metaSuffix.isSuffixOf k

/-- The `timestamp` field read by the sort comparator
`(a, b) => b.timestamp - a.timestamp`. On a non-metadata value (a Blob that
slipped through the suffix filter) the JS property access yields undefined
and the comparator yields NaN, which Array.prototype.sort treats as 0 (a
tie); that tie behaviour is modelled by giving such values timestamp 0. -/
def timestampOf : StoreValue → Nat
  | StoreValue.meta m => m.timestamp
  | StoreValue.blob _ => 0

/-- The comparator order of getAllRecordings: `a` may precede `b` when
`b.timestamp - a.timestamp <= 0`, i.e. descending timestamps. -/
def byTimestampDesc (a b : StoreValue) : Prop :=
  timestampOf b ≤ timestampOf a

instance : DecidableRel byTimestampDesc :=
  fun a b => Nat.decLe (timestampOf b) (timestampOf a)

instance : IsTotal StoreValue byTimestampDesc :=
  ⟨fun a b => Nat.le_total (timestampOf b) (timestampOf a)⟩

instance : IsTrans StoreValue byTimestampDesc :=
  ⟨fun _ _ _ h h' => Nat.le_trans h' h⟩

/-- The pre-sort phase of getAllRecordings: enumerate all keys
(getAllKeys), keep those ending in "-meta", and resolve each kept key to
its stored value (store.get on a key reported by getAllKeys always
succeeds, so the filterMap keeps every kept key's value). -/
def metaEntries (s : Store) : List StoreValue :=
  ((s.map Prod.fst).filter endsWithMeta).filterMap (getKey s)

/-- getAllRecordings from src/frontend/lib/indexeddb.ts: the filtered
values sorted by `(a, b) => b.timestamp - a.timestamp` (a stable sort into
descending-timestamp order, as Array.prototype.sort guarantees). -/
def getAllRecordings (s : Store) : List StoreValue :=
  List.insertionSort byTimestampDesc (metaEntries s)

/-- updateRecordingMeta from src/frontend/lib/indexeddb.ts: read the
existing metadata at the derived key; when absent resolve null without
writing; otherwise merge the partial update (`{...existing, ...updates}`)
over it and put it back. `newName` models the optional `name` field of
`updates`. When the value at the derived key is a Blob rather than a
metadata record (unreachable under the pairing invariant), the JS spread of
a Blob contributes no fields, so the merged object holds only the update's
fields; the remaining fields are modelled as zero/empty. -/
def updateRecordingMeta (s : Store) (id : Key) (newName : Option (List Char)) :
    Option RecordingMeta × Store :=
  match getKey s (metaKey id) with
  | none => (none, s)
  | some (StoreValue.meta m) =>
      (some { m with name := newName.getD m.name },
       putEntry s (metaKey id) (StoreValue.meta { m with name := newName.getD m.name }))
  | some (StoreValue.blob _) =>
      (some { id := [], name := newName.getD [], timestamp := 0, duration := 0, size := 0 },
       putEntry s (metaKey id)
         (StoreValue.meta { id := [], name := newName.getD [], timestamp := 0, duration := 0, size := 0 }))

/-- deleteVideo from src/frontend/lib/indexeddb.ts: delete both the payload
key and the derived metadata key within one readwrite transaction. -/
def deleteVideo (s : Store) (id : Key) : Store :=
  deleteKey (deleteKey s id) (metaKey id)

/-- wellKeyed: every metadata record in the store sits at the key derived
from its own id — the shape saveVideo always produces and
updateRecordingMeta preserves. -/
def wellKeyed (s : Store) : Bool :=
  s.all fun kv =>
    match kv.2 with
    | StoreValue.meta m => kv.1 == metaKey m.id
    | StoreValue.blob _ => true

/-- MAX_RECORDING_DURATION from the ScreenRecorder component:
3 minutes in milliseconds. -/
def MAX_RECORDING_DURATION : Nat := 3 * 60 * 1000

/-- The ScreenRecorder component's mutable session state: React state
(isRecording, recordingTime) and the refs holding streams, timers, chunks
and the current recording id. `onstopCapturedTime` is the value of the
`recordingTime` binding captured by the `mediaRecorder.onstop` closure at
the moment startRecording ran — the closure keeps seeing that render's
value, not later updates. -/
structure Controller where
  isRecording : Bool
  recordingTime : Nat
  chunks : List Blob
  currentRecordingId : Option Key
  screenActive : Bool
  micActive : Bool
  audioContextOpen : Bool
  timerArmed : Bool
  autoStopArmed : Bool
  onstopCapturedTime : Option Nat
deriving DecidableEq

/-- The component's initial state: not recording, zero elapsed time, no
acquired resources. -/
def initialController : Controller :=
  { isRecording := false, recordingTime := 0, chunks := [],
    currentRecordingId := none, screenActive := false, micActive := false,
    audioContextOpen := false, timerArmed := false, autoStopArmed := false,
    onstopCapturedTime := none }

/-- startRecording success path: reset chunks, pick a fresh id, acquire the
screen stream (and, when `micAcquired`, the microphone stream plus the
AudioContext used for mixing), install the onstop closure (capturing the
current `recordingTime` value), start the recorder, and arm both the
1-second interval timer and the auto-stop timeout. -/
def startRecording (c : Controller) (id : Key) (micAcquired : Bool) :
    Controller :=
  { c with
    chunks := []
    currentRecordingId := some id
    screenActive := true
    micActive := micAcquired
    audioContextOpen := micAcquired
    onstopCapturedTime := some c.recordingTime
    isRecording := true
    timerArmed := true
    autoStopArmed := true }

/-- One firing of the 1-second interval timer:
`setRecordingTime(prev => prev + 1)`. -/
def timerTick (c : Controller) : Controller :=
  if c.timerArmed then { c with recordingTime := c.recordingTime + 1 } else c

/-- ondataavailable: push the slice onto the chunk buffer when non-empty. -/
def handleDataAvailable (c : Controller) (chunk : Blob) : Controller :=
  if chunk.length > 0 then { c with chunks := c.chunks ++ [chunk] } else c

/-- The cleanup tail of `mediaRecorder.onstop`: stop all screen and
microphone tracks, close the AudioContext, clear the interval and the
auto-stop timeout, and reset isRecording and recordingTime. -/
def cleanupAfterStop (c : Controller) : Controller :=
  { c with
    screenActive := false
    micActive := false
    audioContextOpen := false
    timerArmed := false
    autoStopArmed := false
    isRecording := false
    recordingTime := 0 }

/-- mediaRecorder.onstop from src/unnamed/part_000 (lines 219-239):
concatenate the buffered chunks into one blob, read
`const duration = recordingTime` — the closure's captured value — and, when
a current recording id exists, `await saveVideo(...)`. When that await
rejects (`saveOk = false`) the async function aborts and nothing after it
runs: no cleanup. Otherwise the cleanup tail runs. (loadRecordings and
playRecording catch their own errors and do not mutate the store.) -/
def mediaRecorderOnstop (c : Controller) (s : Store) (saveOk : Bool)
    (now : Nat) (defaultName : List Char) :
    Controller × Store × Option RecordingMeta :=
  let blob : Blob := c.chunks.flatten
  let duration := c.onstopCapturedTime.getD 0
  match c.currentRecordingId with
  | some id =>
      if saveOk then
        let res := saveVideo s id blob duration none now defaultName
        (cleanupAfterStop c, res.2, some res.1)
      else
        (c, s, none)
  | none => (cleanupAfterStop c, s, none)

/-- MediaRecorder state as checked by the three stop paths: 'recording'
until stop() fires, after which the session is finalizing. -/
inductive RecState where
  | recording
  | finalizing
deriving DecidableEq

/-- Events a Recording-state session can receive: interval ticks, the
manual stop button, the browser's screen-share-ended signal, and the
auto-stop timeout armed at Recording entry. -/
inductive SessionEvent where
  | tick
  | manualStop
  | screenShareEnded
  | autoStopFire
deriving DecidableEq

/-- The guard shared by stopRecording, the screen-track onended handler and
the auto-stop callback: `if (mediaRecorderRef.current?.state === 'recording')
mediaRecorderRef.current.stop()`. -/
def stopIfRecording : RecState → RecState
  | RecState.recording => RecState.finalizing
  | st => st

/-- Effect of one event on the MediaRecorder state. -/
def stepEvent (st : RecState) : SessionEvent → RecState
  | SessionEvent.tick => st
  | SessionEvent.manualStop => stopIfRecording st
  | SessionEvent.screenShareEnded => stopIfRecording st
  | SessionEvent.autoStopFire => stopIfRecording st

/-- Run a session from a state through a sequence of events. -/
def runEvents (st : RecState) (es : List SessionEvent) : RecState :=
  es.foldl stepEvent st

/-- The store's mutating operations, as issued by the component. -/
inductive StoreOp where
  | save (id : Key) (blob : Blob) (duration : Nat) (name : Option (List Char))
      (now : Nat) (defaultName : List Char)
  | update (id : Key) (newName : Option (List Char))
  | delete (id : Key)

/-- Apply one store operation. -/
def applyOp (s : Store) : StoreOp → Store
  | StoreOp.save id blob duration name now dn =>
      (saveVideo s id blob duration name now dn).2
  | StoreOp.update id n => (updateRecordingMeta s id n).2
  | StoreOp.delete id => deleteVideo s id

/-- Run a sequence of store operations from the empty store. -/
def runOps (ops : List StoreOp) : Store := ops.foldl applyOp []

/-- The id an operation targets. -/
def opId : StoreOp → Key
  | StoreOp.save id _ _ _ _ _ => id
  | StoreOp.update id _ => id
  | StoreOp.delete id => id

/-- A key of derived-metadata shape: some id with "-meta" appended. -/
def MetaForm (k : Key) : Prop := ∃ i, k = metaKey i

/-- The payload/metadata pairing invariant: every present key is either a
payload key whose metadata twin is present, or the metadata twin of a
present payload key. -/
def PairInv (s : Store) : Prop :=
  ∀ k, hasKey s k = true →
    (¬ MetaForm k ∧ hasKey s (metaKey k) = true) ∨
    (∃ i, ¬ MetaForm i ∧ k = metaKey i ∧ hasKey s i = true)

/- Lemmas about the association-list store operations. -/

theorem getKey_putEntry_self (s : Store) (k : Key) (v : StoreValue) :
    getKey (putEntry s k v) k = some v := by
  induction s with
  | nil => simp [putEntry, getKey]
  | cons kv rest ih =>
      obtain ⟨k', v'⟩ := kv
      by_cases h : k' = k
      · simp [putEntry, h, getKey]
      · simp [putEntry, h, getKey, ih]

theorem getKey_putEntry_ne (s : Store) {k k' : Key} (v : StoreValue)
    (h : k' ≠ k) : getKey (putEntry s k v) k' = getKey s k' := by
  induction s with
  | nil => simp [putEntry, getKey, Ne.symm h]
  | cons kv rest ih =>
      obtain ⟨k₀, v₀⟩ := kv
      by_cases h₀ : k₀ = k
      · subst h₀
        simp [putEntry, getKey, Ne.symm h]
      · simp only [putEntry, if_neg h₀]
        by_cases h₁ : k₀ = k'
        · simp [getKey, h₁]
        · simp [getKey, h₁, ih]

theorem getKey_deleteKey_self (s : Store) (k : Key) :
    getKey (deleteKey s k) k = none := by
  induction s with
  | nil => simp [deleteKey, getKey]
  | cons kv rest ih =>
      obtain ⟨k₀, v₀⟩ := kv
      by_cases h : k₀ = k
      · simp [deleteKey, h, ih]
      · simp [deleteKey, h, getKey, ih]

theorem getKey_deleteKey_ne (s : Store) {k k' : Key}
    (h : k' ≠ k) : getKey (deleteKey s k) k' = getKey s k' := by
  induction s with
  | nil => simp [deleteKey]
  | cons kv rest ih =>
      obtain ⟨k₀, v₀⟩ := kv
      by_cases h₀ : k₀ = k
      · subst h₀
        simp [deleteKey, getKey, Ne.symm h, ih]
      · simp only [deleteKey, if_neg h₀]
        by_cases h₁ : k₀ = k'
        · simp [getKey, h₁]
        · simp [getKey, h₁, ih]

theorem hasKey_putEntry (s : Store) (k k' : Key) (v : StoreValue) :
    hasKey (putEntry s k v) k' = true ↔ k' = k ∨ hasKey s k' = true := by
  by_cases h : k' = k
  · subst h
    simp [hasKey, getKey_putEntry_self]
  · simp [hasKey, getKey_putEntry_ne s v h, h]

theorem hasKey_deleteKey (s : Store) (k k' : Key) :
    hasKey (deleteKey s k) k' = true ↔ k' ≠ k ∧ hasKey s k' = true := by
  by_cases h : k' = k
  · subst h
    simp [hasKey, getKey_deleteKey_self]
  · simp [hasKey, getKey_deleteKey_ne s h, h]

theorem getKey_mem (s : Store) (k : Key) (v : StoreValue)
    (h : getKey s k = some v) : (k, v) ∈ s := by
  induction s with
  | nil => simp [getKey] at h
  | cons kv rest ih =>
      obtain ⟨k₀, v₀⟩ := kv
      by_cases h₀ : k₀ = k
      · subst h₀
        simp [getKey] at h
        simp [h]
      · simp [getKey, h₀] at h
        exact List.mem_cons_of_mem _ (ih h)

theorem getKey_isSome_of_mem_fst (s : Store) (k : Key)
    (h : k ∈ s.map Prod.fst) : (getKey s k).isSome := by
  induction s with
  | nil => simp at h
  | cons kv rest ih =>
      obtain ⟨k₀, v₀⟩ := kv
      by_cases h₀ : k₀ = k
      · simp [getKey, h₀]
      · rw [List.map_cons, List.mem_cons] at h
        rcases h with h | h
        · exact absurd h.symm h₀
        · simp [getKey, h₀, ih h]

theorem mem_map_fst_putEntry (s : Store) (k : Key) (v : StoreValue) :
    k ∈ (putEntry s k v).map Prod.fst := by
  induction s with
  | nil => simp [putEntry]
  | cons kv rest ih =>
      obtain ⟨k₀, v₀⟩ := kv
      by_cases h : k₀ = k
      · simp only [putEntry, if_pos h, List.map_cons]
        exact List.mem_cons_self _ _
      · simp only [putEntry, if_neg h, List.map_cons]
        exact List.mem_cons_of_mem _ ih

/- Lemmas about metadata keys. -/

theorem metaKey_inj {i j : Key} (h : metaKey i = metaKey j) : i = j :=
  List.append_inj_left' h rfl

theorem metaKey_ne_self (i : Key) : metaKey i ≠ i := by
  intro h
  have := congrArg List.length h
  simp [metaKey, metaSuffix] at this

theorem endsWithMeta_metaKey (i : Key) : endsWithMeta (metaKey i) = true := by
  simp [endsWithMeta, metaKey, List.isSuffixOf_iff_suffix]

theorem MetaForm_iff (k : Key) : MetaForm k ↔ endsWithMeta k = true := by
  simp only [MetaForm, endsWithMeta, List.isSuffixOf_iff_suffix, List.IsSuffix,
    metaKey]
  constructor
  · rintro ⟨i, rfl⟩
    exact ⟨i, rfl⟩
  · rintro ⟨t, rfl⟩
    exact ⟨t, rfl⟩

theorem not_MetaForm_of_endsWithMeta_false {k : Key}
    (h : endsWithMeta k = false) : ¬ MetaForm k := by
  rw [MetaForm_iff, h]
  simp

/- Preservation of the pairing invariant by each store operation. -/

theorem PairInv_nil : PairInv [] := by
  intro k hk
  simp [hasKey, getKey] at hk

theorem PairInv_putPair (s : Store) (id : Key) (b : Blob) (m : RecordingMeta)
    (hid : ¬ MetaForm id) (hinv : PairInv s) :
    PairInv (putEntry (putEntry s id (StoreValue.blob b)) (metaKey id)
      (StoreValue.meta m)) := by
  intro k hk
  rw [hasKey_putEntry, hasKey_putEntry] at hk
  rcases hk with hk | hk | hk
  · -- k is the new metadata key
    refine Or.inr ⟨id, hid, hk, ?_⟩
    rw [hasKey_putEntry, hasKey_putEntry]
    exact Or.inr (Or.inl rfl)
  · -- k is the new payload key
    subst hk
    refine Or.inl ⟨hid, ?_⟩
    rw [hasKey_putEntry]
    exact Or.inl rfl
  · -- k was already present
    rcases hinv k hk with ⟨hnm, hmk⟩ | ⟨i, hi, hkeq, hhi⟩
    · refine Or.inl ⟨hnm, ?_⟩
      rw [hasKey_putEntry, hasKey_putEntry]
      exact Or.inr (Or.inr hmk)
    · refine Or.inr ⟨i, hi, hkeq, ?_⟩
      rw [hasKey_putEntry, hasKey_putEntry]
      exact Or.inr (Or.inr hhi)

theorem PairInv_deleteVideo (s : Store) (id : Key)
    (hid : ¬ MetaForm id) (hinv : PairInv s) :
    PairInv (deleteVideo s id) := by
  intro k hk
  unfold deleteVideo at hk ⊢
  rw [hasKey_deleteKey, hasKey_deleteKey] at hk
  obtain ⟨hkmk, hkid, hk⟩ := hk
  rcases hinv k hk with ⟨hnm, hmk⟩ | ⟨i, hi, hkeq, hhi⟩
  · refine Or.inl ⟨hnm, ?_⟩
    rw [hasKey_deleteKey, hasKey_deleteKey]
    refine ⟨?_, ?_, hmk⟩
    · intro h
      exact hkid (metaKey_inj h)
    · intro h
      exact hid ⟨k, h.symm⟩
  · refine Or.inr ⟨i, hi, hkeq, ?_⟩
    rw [hasKey_deleteKey, hasKey_deleteKey]
    refine ⟨?_, ?_, hhi⟩
    · intro h
      exact hi ⟨id, h⟩
    · intro h
      exact hkmk (by rw [hkeq, h])

theorem PairInv_of_sameKeys (s s' : Store)
    (h : ∀ k, hasKey s' k = hasKey s k) (hinv : PairInv s) : PairInv s' := by
  intro k hk
  rw [h] at hk
  rcases hinv k hk with ⟨hnm, hmk⟩ | ⟨i, hi, hkeq, hhi⟩
  · exact Or.inl ⟨hnm, by rw [h]; exact hmk⟩
  · exact Or.inr ⟨i, hi, hkeq, by rw [h]; exact hhi⟩

theorem PairInv_updateRecordingMeta (s : Store) (id : Key)
    (n : Option (List Char)) (hinv : PairInv s) :
    PairInv (updateRecordingMeta s id n).2 := by
  unfold updateRecordingMeta
  cases hks : getKey s (metaKey id) with
  | none => exact hinv
  | some v =>
      have hsame : ∀ v' : StoreValue, ∀ k,
          hasKey (putEntry s (metaKey id) v') k = hasKey s k := by
        intro v' k
        by_cases hk : k = metaKey id
        · subst hk
          simp [hasKey, getKey_putEntry_self, hks]
        · simp [hasKey, getKey_putEntry_ne s v' hk]
      cases v with
      | meta m => exact PairInv_of_sameKeys s _ (hsame _) hinv
      | blob b => exact PairInv_of_sameKeys s _ (hsame _) hinv

theorem PairInv_applyOp (s : Store) (op : StoreOp)
    (hop : ¬ MetaForm (opId op)) (hinv : PairInv s) :
    PairInv (applyOp s op) := by
  cases op with
  | save id blob duration name now dn =>
      exact PairInv_putPair s id blob _ hop hinv
  | update id n => exact PairInv_updateRecordingMeta s id n hinv
  | delete id => exact PairInv_deleteVideo s id hop hinv

theorem PairInv_foldl (ops : List StoreOp) :
    ∀ s, (∀ op ∈ ops, ¬ MetaForm (opId op)) → PairInv s →
      PairInv (ops.foldl applyOp s) := by
  induction ops with
  | nil =>
      intro s _ hinv
      exact hinv
  | cons op rest ih =>
      intro s hops hinv
      exact ih _ (fun o ho => hops o (List.mem_cons_of_mem _ ho))
        (PairInv_applyOp s op (hops op (List.mem_cons_self _ _)) hinv)

theorem PairInv_runOps (ops : List StoreOp)
    (h : ∀ op ∈ ops, endsWithMeta (opId op) = false) :
    PairInv (runOps ops) :=
  PairInv_foldl ops []
    (fun op hop => not_MetaForm_of_endsWithMeta_false (h op hop)) PairInv_nil

/-- Claim C1 as amended: provided no id handed to save/update/delete ends
with the suffix "-meta" (true of every id generateRecordingId produces),
every store state reachable from the empty store by the store's operations
contains no metadata record without its payload and no payload without its
metadata record. -/
theorem C1_pairing_invariant (ops : List StoreOp)
    (h : ∀ op ∈ ops, endsWithMeta (opId op) = false) :
    (∀ id, hasKey (runOps ops) (metaKey id) = true →
      hasKey (runOps ops) id = true) ∧
    (∀ k, hasKey (runOps ops) k = true → endsWithMeta k = false →
      hasKey (runOps ops) (metaKey k) = true) := by
  have hinv := PairInv_runOps ops h
  constructor
  · intro id hmk
    rcases hinv (metaKey id) hmk with ⟨hnm, _⟩ | ⟨i, _, heq, hhi⟩
    · exact absurd ⟨id, rfl⟩ hnm
    · rw [metaKey_inj heq]
      exact hhi
  · intro k hk hends
    rcases hinv k hk with ⟨_, hmk⟩ | ⟨i, _, heq, _⟩
    · exact hmk
    · have hmf : MetaForm k := ⟨i, heq⟩
      rw [MetaForm_iff, hends] at hmf
      simp at hmf

/-- A concrete run of the store with ordinary ids, used to witness the
pairing invariant. -/
def c1ops : List StoreOp :=
  [StoreOp.save ['a'] [0, 1] 3 none 100 ['n'],
   StoreOp.update ['a'] (some ['z']),
   StoreOp.delete ['b']]

/-- Witness for C1: the amended pairing invariant at a concrete run. -/
theorem C1_pairing_invariant_witness :
    (∀ op ∈ c1ops, endsWithMeta (opId op) = false) ∧
    ((∀ id, hasKey (runOps c1ops) (metaKey id) = true →
       hasKey (runOps c1ops) id = true) ∧
     (∀ k, hasKey (runOps c1ops) k = true → endsWithMeta k = false →
       hasKey (runOps c1ops) (metaKey k) = true)) :=
  ⟨by decide, C1_pairing_invariant c1ops (by decide)⟩

/-- Counterexample to C1 as literally stated (quantified over every id):
saving id "a", then id "a-meta", then deleting "a" also deletes the key
"a-meta" — the payload of the second recording — leaving the second
recording's metadata record (under "a-meta-meta") without its payload. -/
theorem C1_counterexample :
    getKey (runOps [StoreOp.save ['a'] [0] 1 none 10 ['n'],
        StoreOp.save ['a', '-', 'm', 'e', 't', 'a'] [7] 2 none 20 ['n'],
        StoreOp.delete ['a']])
      (metaKey ['a', '-', 'm', 'e', 't', 'a']) =
      some (StoreValue.meta { id := ['a', '-', 'm', 'e', 't', 'a'], name := ['n'], timestamp := 20, duration := 2, size := 1 }) ∧
    getKey (runOps [StoreOp.save ['a'] [0] 1 none 10 ['n'],
        StoreOp.save ['a', '-', 'm', 'e', 't', 'a'] [7] 2 none 20 ['n'],
        StoreOp.delete ['a']])
      ['a', '-', 'm', 'e', 't', 'a'] = none := by
  decide

/-- Claim C7: updateRecordingMeta on an id with no metadata record resolves
null, writes nothing, creates nothing, and raises no error. -/
theorem C7_update_absent (s : Store) (id : Key) (newName : Option (List Char))
    (h : getKey s (metaKey id) = none) :
    updateRecordingMeta s id newName = (none, s) := by
  unfold updateRecordingMeta
  rw [h]

/-- Witness for C7 at a concrete store and absent id. -/
theorem C7_update_absent_witness :
    getKey [(['a'], StoreValue.blob [1])] (metaKey ['b']) = none ∧
    updateRecordingMeta [(['a'], StoreValue.blob [1])] ['b'] (some ['x']) =
      (none, [(['a'], StoreValue.blob [1])]) :=
  ⟨by decide, C7_update_absent _ _ _ (by decide)⟩

/-- Claim C8: updating the name of an existing metadata record returns the
merged record — same id, timestamp, duration and size, new name — stores
exactly that record under the metadata key, and changes no other key (in
particular the payload under `id` is untouched). -/
theorem C8_update_existing (s : Store) (id : Key) (n : List Char)
    (m : RecordingMeta)
    (h : getKey s (metaKey id) = some (StoreValue.meta m)) :
    (updateRecordingMeta s id (some n)).1 =
      some { id := m.id, name := n, timestamp := m.timestamp, duration := m.duration, size := m.size } ∧
    getKey (updateRecordingMeta s id (some n)).2 (metaKey id) =
      some (StoreValue.meta { id := m.id, name := n, timestamp := m.timestamp, duration := m.duration, size := m.size }) ∧
    getVideo (updateRecordingMeta s id (some n)).2 id = getVideo s id ∧
    (∀ k, k ≠ metaKey id →
      getKey (updateRecordingMeta s id (some n)).2 k = getKey s k) := by
  unfold updateRecordingMeta
  rw [h]
  refine ⟨rfl, ?_, ?_, ?_⟩
  · exact getKey_putEntry_self _ _ _
  · exact getKey_putEntry_ne s _ (Ne.symm (metaKey_ne_self id))
  · intro k hk
    exact getKey_putEntry_ne s _ hk

/-- Witness for C8 at a concrete one-recording store. -/
theorem C8_update_existing_witness :
    getKey (saveVideo [] ['r'] [1, 2] 3 none 50 ['d']).2 (metaKey ['r']) =
      some (StoreValue.meta { id := ['r'], name := ['d'], timestamp := 50, duration := 3, size := 2 }) ∧
    ((updateRecordingMeta (saveVideo [] ['r'] [1, 2] 3 none 50 ['d']).2 ['r'] (some ['x'])).1 =
      some { id := ['r'], name := ['x'], timestamp := 50, duration := 3, size := 2 } ∧
     getKey (updateRecordingMeta (saveVideo [] ['r'] [1, 2] 3 none 50 ['d']).2 ['r'] (some ['x'])).2 (metaKey ['r']) =
      some (StoreValue.meta { id := ['r'], name := ['x'], timestamp := 50, duration := 3, size := 2 }) ∧
     getVideo (updateRecordingMeta (saveVideo [] ['r'] [1, 2] 3 none 50 ['d']).2 ['r'] (some ['x'])).2 ['r'] =
      getVideo (saveVideo [] ['r'] [1, 2] 3 none 50 ['d']).2 ['r'] ∧
     (∀ k, k ≠ metaKey ['r'] →
       getKey (updateRecordingMeta (saveVideo [] ['r'] [1, 2] 3 none 50 ['d']).2 ['r'] (some ['x'])).2 k =
         getKey (saveVideo [] ['r'] [1, 2] 3 none 50 ['d']).2 k)) :=
  ⟨by decide,
   C8_update_existing (saveVideo [] ['r'] [1, 2] 3 none 50 ['d']).2 ['r'] ['x']
     { id := ['r'], name := ['d'], timestamp := 50, duration := 3, size := 2 }
     (by decide)⟩

/- Further helper lemmas for deletion and listing. -/

theorem getKey_deleteKey_some {s : Store} {k₀ k : Key} {v : StoreValue}
    (h : getKey (deleteKey s k₀) k = some v) : getKey s k = some v := by
  by_cases hk : k = k₀
  · subst hk
    rw [getKey_deleteKey_self] at h
    exact absurd h (by simp)
  · rwa [getKey_deleteKey_ne s hk] at h

theorem wellKeyed_spec {s : Store} (h : wellKeyed s = true) {k : Key}
    {m : RecordingMeta} (hm : (k, StoreValue.meta m) ∈ s) :
    k = metaKey m.id := by
  have := (List.all_eq_true.mp h) _ hm
  exact eq_of_beq this

theorem deleteKey_idem (s : Store) (k : Key) :
    deleteKey (deleteKey s k) k = deleteKey s k := by
  induction s with
  | nil => rfl
  | cons kv rest ih =>
      obtain ⟨k₀, v₀⟩ := kv
      by_cases h : k₀ = k
      · simp [deleteKey, h, ih]
      · simp [deleteKey, h, ih]

theorem deleteKey_comm (s : Store) (a b : Key) :
    deleteKey (deleteKey s a) b = deleteKey (deleteKey s b) a := by
  induction s with
  | nil => rfl
  | cons kv rest ih =>
      obtain ⟨k₀, v₀⟩ := kv
      by_cases ha : k₀ = a
      · subst ha
        by_cases hb : k₀ = b
        · subst hb
          rfl
        · simp [deleteKey, hb, ih]
      · by_cases hb : k₀ = b
        · subst hb
          simp [deleteKey, ha, ih]
        · simp [deleteKey, ha, hb, ih]

/-- Claim C2: after any successful save, getVideo returns the byte-identical
payload, and getAllRecordings includes the constructed metadata record,
whose id is the saved id and whose size is the payload's byte length. -/
theorem C2_save_roundtrip (s : Store) (id : Key) (blob : Blob)
    (duration : Nat) (name : Option (List Char)) (now : Nat)
    (dn : List Char) :
    getVideo (saveVideo s id blob duration name now dn).2 id =
      some (StoreValue.blob blob) ∧
    StoreValue.meta (saveVideo s id blob duration name now dn).1 ∈
      getAllRecordings (saveVideo s id blob duration name now dn).2 ∧
    (saveVideo s id blob duration name now dn).1.id = id ∧
    (saveVideo s id blob duration name now dn).1.size = blob.length := by
  refine ⟨?_, ?_, rfl, rfl⟩
  · show getKey (putEntry (putEntry s id (StoreValue.blob blob)) (metaKey id)
      (StoreValue.meta (saveVideo s id blob duration name now dn).1)) id =
      some (StoreValue.blob blob)
    rw [getKey_putEntry_ne _ _ (Ne.symm (metaKey_ne_self id)),
      getKey_putEntry_self]
  · rw [getAllRecordings, List.mem_insertionSort, metaEntries]
    apply List.mem_filterMap.mpr
    refine ⟨metaKey id, List.mem_filter.mpr ⟨?_, endsWithMeta_metaKey id⟩, ?_⟩
    · show metaKey id ∈ (putEntry (putEntry s id (StoreValue.blob blob))
        (metaKey id) (StoreValue.meta (saveVideo s id blob duration name now dn).1)).map Prod.fst
      exact mem_map_fst_putEntry _ _ _
    · show getKey (putEntry (putEntry s id (StoreValue.blob blob)) (metaKey id)
        (StoreValue.meta (saveVideo s id blob duration name now dn).1)) (metaKey id) =
        some (StoreValue.meta (saveVideo s id blob duration name now dn).1)
      exact getKey_putEntry_self _ _ _

/-- Claim C3: whenever the records found at metadata keys have pairwise
distinct timestamps, getAllRecordings returns exactly those records (a
permutation of them) sorted strictly by timestamp descending. -/
theorem C3_sorted_desc (s : Store)
    (h : (metaEntries s).Pairwise (fun a b => timestampOf a ≠ timestampOf b)) :
    (getAllRecordings s).Pairwise (fun a b => timestampOf b < timestampOf a) ∧
    List.Perm (getAllRecordings s) (metaEntries s) := by
  have hperm : List.Perm (getAllRecordings s) (metaEntries s) :=
    List.perm_insertionSort byTimestampDesc (metaEntries s)
  have hsorted : (getAllRecordings s).Pairwise byTimestampDesc :=
    List.sorted_insertionSort byTimestampDesc (metaEntries s)
  refine ⟨?_, hperm⟩
  have hne : (getAllRecordings s).Pairwise
      (fun a b => timestampOf a ≠ timestampOf b) :=
    (List.Perm.pairwise_iff (fun hxy => hxy.symm) hperm).mpr h
  refine (hsorted.and hne).imp ?_
  intro a b hab
  exact Nat.lt_of_le_of_ne hab.1 (fun hh => hab.2 hh.symm)

/-- Witness for C3: two saved recordings with timestamps 100 and 200. -/
theorem C3_sorted_desc_witness :
    (metaEntries (saveVideo (saveVideo [] ['a'] [1] 1 none 100 ['n']).2 ['b'] [2, 3] 2 none 200 ['m']).2).Pairwise
      (fun a b => timestampOf a ≠ timestampOf b) ∧
    ((getAllRecordings (saveVideo (saveVideo [] ['a'] [1] 1 none 100 ['n']).2 ['b'] [2, 3] 2 none 200 ['m']).2).Pairwise
      (fun a b => timestampOf b < timestampOf a) ∧
     List.Perm (getAllRecordings (saveVideo (saveVideo [] ['a'] [1] 1 none 100 ['n']).2 ['b'] [2, 3] 2 none 200 ['m']).2)
      (metaEntries (saveVideo (saveVideo [] ['a'] [1] 1 none 100 ['n']).2 ['b'] [2, 3] 2 none 200 ['m']).2)) :=
  ⟨by decide,
   C3_sorted_desc (saveVideo (saveVideo [] ['a'] [1] 1 none 100 ['n']).2 ['b'] [2, 3] 2 none 200 ['m']).2 (by decide)⟩

/-- Claim C9: deleteVideo removes both the payload key and its metadata-key
twin (both lookups return null afterwards), after it no metadata record
with the deleted id remains in getAllRecordings, and deleting again is a
no-op — deletion is idempotent and never errors, even on absent keys. The
hypothesis says every metadata record sits at the key derived from its id,
which is how saveVideo and updateRecordingMeta always store them. -/
theorem C9_delete_removes_pair (s : Store) (id : Key)
    (h : wellKeyed s = true) :
    getVideo (deleteVideo s id) id = none ∧
    getKey (deleteVideo s id) (metaKey id) = none ∧
    (∀ m : RecordingMeta,
      StoreValue.meta m ∈ getAllRecordings (deleteVideo s id) → m.id ≠ id) ∧
    deleteVideo (deleteVideo s id) id = deleteVideo s id := by
  refine ⟨?_, ?_, ?_, ?_⟩
  · show getKey (deleteKey (deleteKey s id) (metaKey id)) id = none
    rw [getKey_deleteKey_ne _ (Ne.symm (metaKey_ne_self id)),
      getKey_deleteKey_self]
  · exact getKey_deleteKey_self _ _
  · intro m hm hid
    rw [getAllRecordings, List.mem_insertionSort, metaEntries] at hm
    obtain ⟨k, hk, hget⟩ := List.mem_filterMap.mp hm
    have hs : getKey s k = some (StoreValue.meta m) :=
      getKey_deleteKey_some (getKey_deleteKey_some hget)
    have hkid : k = metaKey m.id := wellKeyed_spec h (getKey_mem _ _ _ hs)
    rw [hkid, hid] at hget
    have hnone : getKey (deleteKey (deleteKey s id) (metaKey id)) (metaKey id) =
        some (StoreValue.meta m) := hget
    rw [getKey_deleteKey_self] at hnone
    exact absurd hnone (by simp)
  · show deleteKey (deleteKey (deleteKey (deleteKey s id) (metaKey id)) id) (metaKey id) =
      deleteKey (deleteKey s id) (metaKey id)
    rw [deleteKey_comm (deleteKey s id) (metaKey id) id, deleteKey_idem,
      deleteKey_idem]

/-- Witness for C9 at a concrete one-recording store. -/
theorem C9_delete_removes_pair_witness :
    wellKeyed (saveVideo [] ['r'] [1, 2] 3 none 50 ['n']).2 = true ∧
    (getVideo (deleteVideo (saveVideo [] ['r'] [1, 2] 3 none 50 ['n']).2 ['r']) ['r'] = none ∧
     getKey (deleteVideo (saveVideo [] ['r'] [1, 2] 3 none 50 ['n']).2 ['r']) (metaKey ['r']) = none ∧
     (∀ m : RecordingMeta,
       StoreValue.meta m ∈ getAllRecordings (deleteVideo (saveVideo [] ['r'] [1, 2] 3 none 50 ['n']).2 ['r']) → m.id ≠ ['r']) ∧
     deleteVideo (deleteVideo (saveVideo [] ['r'] [1, 2] 3 none 50 ['n']).2 ['r']) ['r'] =
       deleteVideo (saveVideo [] ['r'] [1, 2] 3 none 50 ['n']).2 ['r']) :=
  ⟨by decide,
   C9_delete_removes_pair (saveVideo [] ['r'] [1, 2] 3 none 50 ['n']).2 ['r'] (by decide)⟩

/-- Claim C10: getAllRecordings treats every key ending in "-meta" as a
metadata key, so saving under an id that itself ends in "-meta" makes the
listing return the raw payload stored under that key as though it were a
metadata record (alongside the genuine metadata record). -/
theorem C10_suffix_collision :
    endsWithMeta ['x', '-', 'm', 'e', 't', 'a'] = true ∧
    StoreValue.blob [1, 2, 3] ∈
      getAllRecordings (saveVideo [] ['x', '-', 'm', 'e', 't', 'a'] [1, 2, 3] 5 none 42 ['n']).2 ∧
    StoreValue.meta (saveVideo [] ['x', '-', 'm', 'e', 't', 'a'] [1, 2, 3] 5 none 42 ['n']).1 ∈
      getAllRecordings (saveVideo [] ['x', '-', 'm', 'e', 't', 'a'] [1, 2, 3] 5 none 42 ['n']).2 := by
  decide

/-- A concrete capture session: started with microphone, two 1-second timer
ticks, one 2-byte data slice buffered. -/
def c4session : Controller :=
  handleDataAvailable
    (timerTick (timerTick (startRecording initialController ['r'] true))) [9, 9]

/-- Claim C4 evaluated on the code (code bug): when the `await saveVideo`
inside onstop rejects, the async handler aborts before the cleanup tail, so
the screen and microphone streams stay live, the AudioContext stays open,
both timers stay armed and recordingTime is not reset — the whole
controller state is untouched; when the save succeeds, the same handler
does release everything and reset the time. -/
theorem C4_cleanup_skipped_on_save_failure :
    (mediaRecorderOnstop c4session [] false 99 ['n']).1 = c4session ∧
    c4session.screenActive = true ∧
    c4session.micActive = true ∧
    c4session.audioContextOpen = true ∧
    c4session.timerArmed = true ∧
    c4session.autoStopArmed = true ∧
    c4session.recordingTime = 2 ∧
    (mediaRecorderOnstop c4session [] true 99 ['n']).1.screenActive = false ∧
    (mediaRecorderOnstop c4session [] true 99 ['n']).1.micActive = false ∧
    (mediaRecorderOnstop c4session [] true 99 ['n']).1.audioContextOpen = false ∧
    (mediaRecorderOnstop c4session [] true 99 ['n']).1.timerArmed = false ∧
    (mediaRecorderOnstop c4session [] true 99 ['n']).1.autoStopArmed = false ∧
    (mediaRecorderOnstop c4session [] true 99 ['n']).1.recordingTime = 0 := by
  decide

/-- A concrete capture session that records for five timer ticks and
buffers one 2-byte data slice. -/
def c5session : Controller :=
  handleDataAvailable
    (timerTick (timerTick (timerTick (timerTick (timerTick
      (startRecording initialController ['r'] true)))))) [9, 9]

/-- Claim C5 evaluated on the code (code bug): after five 1-second ticks
the timer has counted five elapsed seconds, but `const duration =
recordingTime` in the onstop closure reads the value captured when
startRecording ran (zero), so the metadata record saved on stop carries
duration 0, not 5. -/
theorem C5_duration_stale_closure :
    c5session.recordingTime = 5 ∧
    c5session.onstopCapturedTime = some 0 ∧
    (mediaRecorderOnstop c5session [] true 77 ['n']).2.2 =
      some { id := ['r'], name := ['n'], timestamp := 77, duration := 0, size := 2 } ∧
    getKey (mediaRecorderOnstop c5session [] true 77 ['n']).2.1 (metaKey ['r']) =
      some (StoreValue.meta { id := ['r'], name := ['n'], timestamp := 77, duration := 0, size := 2 }) := by
  decide

/- Helper lemmas for the auto-stop bound. -/

theorem runEvents_finalizing (es : List SessionEvent) :
    runEvents RecState.finalizing es = RecState.finalizing := by
  induction es with
  | nil => rfl
  | cons e rest ih =>
      cases e <;> exact ih

theorem runEvents_recording_of_fire (es : List SessionEvent)
    (h : SessionEvent.autoStopFire ∈ es) :
    runEvents RecState.recording es = RecState.finalizing := by
  induction es with
  | nil => simp at h
  | cons e rest ih =>
      rcases List.mem_cons.mp h with he | h'
      · cases he
        exact runEvents_finalizing rest
      · cases e with
        | tick => exact ih h'
        | manualStop => exact runEvents_finalizing rest
        | screenShareEnded => exact runEvents_finalizing rest
        | autoStopFire => exact runEvents_finalizing rest

/-- Claim C6: MAX_RECORDING_DURATION is exactly 180 seconds in
milliseconds, and any Recording session that receives no manual stop and
whose auto-stop timer (armed at Recording entry) fires at its
MAX_RECORDING_DURATION deadline has transitioned to finalizing once the
events up to and including 180000 ms have been processed — at or before
180 seconds of elapsed recording. -/
theorem C6_auto_stop (trace : List (Nat × SessionEvent))
    (hfire : (MAX_RECORDING_DURATION, SessionEvent.autoStopFire) ∈ trace)
    (hnoManual : ∀ e ∈ trace, e.2 ≠ SessionEvent.manualStop) :
    MAX_RECORDING_DURATION = 180 * 1000 ∧
    runEvents RecState.recording
      ((trace.filter (fun e => e.1 ≤ MAX_RECORDING_DURATION)).map Prod.snd) =
      RecState.finalizing := by
  refine ⟨rfl, ?_⟩
  apply runEvents_recording_of_fire
  apply List.mem_map.mpr
  refine ⟨(MAX_RECORDING_DURATION, SessionEvent.autoStopFire), ?_, rfl⟩
  exact List.mem_filter.mpr ⟨hfire, by simp⟩

/-- Witness for C6 on a concrete trace: one tick, then the auto-stop
timer fires at its deadline. -/
theorem C6_auto_stop_witness :
    ((MAX_RECORDING_DURATION, SessionEvent.autoStopFire) ∈
      ([(1000, SessionEvent.tick), (180000, SessionEvent.autoStopFire)] :
        List (Nat × SessionEvent)) ∧
     (∀ e ∈ ([(1000, SessionEvent.tick), (180000, SessionEvent.autoStopFire)] :
        List (Nat × SessionEvent)), e.2 ≠ SessionEvent.manualStop)) ∧
    (MAX_RECORDING_DURATION = 180 * 1000 ∧
     runEvents RecState.recording
      ((([(1000, SessionEvent.tick), (180000, SessionEvent.autoStopFire)] :
        List (Nat × SessionEvent)).filter
          (fun e => e.1 ≤ MAX_RECORDING_DURATION)).map Prod.snd) =
      RecState.finalizing) :=
  ⟨⟨by decide, by decide⟩,
   C6_auto_stop [(1000, SessionEvent.tick), (180000, SessionEvent.autoStopFire)]
     (by decide) (by decide)⟩
